import Mathlib

/-!
# particles-attract.js: a shallow embedding

The script keeps a list of particles, a pointer record and the viewport size,
and advances them once per animation frame (`step`).  JavaScript numbers are
modelled as elements of a linear ordered field `K` with a floor function
(exact arithmetic: `ℚ` to evaluate, `ℝ` for the statements about `Math.sqrt`
and `Math.hypot`).  NaN, the infinities and rounding are outside the model.

The host functions `Math.sqrt`, `Math.hypot` and `Math.random` are the fields
of `JSMath`; the successive results of `Math.random()` are read from a stream
indexed by a call counter that the world state carries.  The canvas is
modelled by the list of strokes and fills a frame issues, each with the
`globalAlpha` in force when it is issued.
-/

namespace ParticlesAttract

/-! ## Data model -/

/-- The `CONFIG` object (source lines 8-27). -/
structure Config (K : Type) where
  particleColor : String
  particleMinSize : K
  particleMaxSize : K
  particleOpacity : K
  maxParticles : ℕ
  areaPerParticle : K
  attractRadius : K
  attractStrength : K
  springHome : K
  maxSpeed : K
  drift : K
  linkRadius : K
  linkColor : String

/-- The values the script ships with. -/
def CONFIG (K : Type) [DivisionRing K] : Config K where
  particleColor := "#000408ff"
  particleMinSize := 1.2
  particleMaxSize := 2.4
  particleOpacity := 0.9
  maxParticles := 240
  areaPerParticle := 10000
  attractRadius := 140
  attractStrength := 0.16
  springHome := 0.015
  maxSpeed := 1.6
  drift := 0.08
  linkRadius := 65
  linkColor := "rgba(0, 0, 0, 0.25)"

/-- A particle record as built by `createParticle` (source lines 78-86). -/
structure Particle (K : Type) where
  x : K
  y : K
  vx : K
  vy : K
  size : K
  homeX : K
  homeY : K
deriving DecidableEq

/-- The `mouse` record (source line 58). -/
structure Mouse (K : Type) where
  x : K
  y : K
  active : Bool
deriving DecidableEq

/-- The host functions the script calls: `Math.sqrt`, `Math.hypot`, and the
sequence of values successive calls of `Math.random()` return. -/
structure JSMath (K : Type) where
  sqrt : K → K
  hypot : K → K → K
  random : ℕ → K

/-- A canvas operation together with the `globalAlpha` it is issued under:
`stroke` of the segment from `(x1, y1)` to `(x2, y2)`, or `fill` of the disc
at `(x, y)` of radius `r`. -/
inductive Draw (K : Type) where
  | line (globalAlpha x1 y1 x2 y2 : K)
  | arc (globalAlpha x y r : K)
deriving DecidableEq

/-- The mutable state of the closure: viewport `w`, `h`, the `particles`
array, the `mouse` record, and the number of `Math.random()` calls made. -/
structure World (K : Type) where
  w : K
  h : K
  particles : List (Particle K)
  mouse : Mouse K
  tick : ℕ

variable {K : Type} [LinearOrderedField K]

/-! ## Particle creation and sizing -/

/-- `targetParticleCount` (source lines 60-65). The quotient is exact; a zero
`areaPerParticle`, for which JavaScript yields an infinity or NaN, is not
represented (the shipped divisor is 10000). -/
def targetParticleCount [FloorRing K] (cfg : Config K) (w h : K) : ℤ :=
  min (cfg.maxParticles : ℤ) (max 40 ⌊(w * h) / cfg.areaPerParticle⌋)

/-- `rand(min, max)` (source lines 67-69); `u` is the `Math.random()` draw. -/
def rand (u min max : K) : K :=
  u * (max - min) + min

/-- `clamp(v, min, max)` (source lines 71-73). -/
def clamp {α : Type} [LinearOrder α] (v min max : α) : α :=
  if v < min then min else if v > max then max else v

/-- `createParticle` (source lines 75-87): five `Math.random()` calls, in the
order `x`, `y`, `vx`, `vy`, `size`, starting at call number `t`. -/
def createParticle (M : JSMath K) (cfg : Config K) (w h : K) (t : ℕ) : Particle K :=
  let x := M.random t * w
  let y := M.random (t + 1) * h
  { x := x
    y := y
    vx := rand (M.random (t + 2)) (-0.2) 0.2
    vy := rand (M.random (t + 3)) (-0.2) 0.2
    size := rand (M.random (t + 4)) cfg.particleMinSize cfg.particleMaxSize
    homeX := x
    homeY := y }

/-- The loop `for (...; i < n; i++) particles.push(createParticle())` run for
`n` iterations on the array `ps`, with `t` random calls made so far; returns
the array and the call counter. -/
def pushParticles (M : JSMath K) (cfg : Config K) (w h : K) :
    ℕ → List (Particle K) → ℕ → List (Particle K) × ℕ
  | 0, ps, t => (ps, t)
  | n + 1, ps, t => pushParticles M cfg w h n (ps ++ [createParticle M cfg w h t]) (t + 5)

/-- `initParticles` (source lines 89-93): empty the array, then push
`targetParticleCount()` particles (the loop runs from `0` while `i < n`). -/
def initParticles [FloorRing K] (M : JSMath K) (cfg : Config K) (s : World K) : World K :=
  let n := targetParticleCount cfg s.w s.h
  let r := pushParticles M cfg s.w s.h n.toNat [] s.tick
  { s with particles := r.1, tick := r.2 }

/-! ## Event handlers -/

/-- The `resize` listener (source lines 96-106); `innerWidth`, `innerHeight`
are the new `window.innerWidth`, `window.innerHeight`. -/
def onResize [FloorRing K] (M : JSMath K) (cfg : Config K) (s : World K) (innerWidth innerHeight : K) :
    World K :=
  let desired := targetParticleCount cfg innerWidth innerHeight
  if desired > (s.particles.length : ℤ) then
    let r := pushParticles M cfg innerWidth innerHeight
      (desired - (s.particles.length : ℤ)).toNat s.particles s.tick
    { s with w := innerWidth, h := innerHeight, particles := r.1, tick := r.2 }
  else if desired < (s.particles.length : ℤ) then
    { s with w := innerWidth, h := innerHeight, particles := s.particles.take desired.toNat }
  else
    { s with w := innerWidth, h := innerHeight }

/-- The `mousemove` listener (source lines 108-112). -/
def onMouseMove (s : World K) (clientX clientY : K) : World K :=
  { s with mouse := { x := clientX, y := clientY, active := true } }

/-- The `mouseleave` listener (source lines 114-118). -/
def onMouseLeave (s : World K) : World K :=
  { s with mouse := { x := -9999, y := -9999, active := false } }

/-! ## The frame update `step` -/

/-- The squared distance `d2 = dx * dx + dy * dy` of the link pass (source
lines 132-134). -/
def dist2 (a b : Particle K) : K :=
  (a.x - b.x) * (a.x - b.x) + (a.y - b.y) * (a.y - b.y)

/-- The constant `alpha = 1 - Math.sqrt(d2) / r` of the link pass (source
line 137). -/
def linkFade (M : JSMath K) (r : K) (a b : Particle K) : K :=
  1 - M.sqrt (dist2 a b) / r

/-- The value `ctx.globalAlpha = alpha * 0.6` the link between `a` and `b` is
stroked with (source line 138). -/
def linkAlpha (M : JSMath K) (r : K) (a b : Particle K) : K :=
  linkFade M r a b * 0.6

/-- The inner loop over `j > i` of the link pass (source lines 130-144): the
strokes from particle `a` to the later particles `bs`. -/
def linksFrom (M : JSMath K) (r : K) (a : Particle K) : List (Particle K) → List (Draw K)
  | [] => []
  | b :: bs =>
    (if dist2 a b < r * r then [Draw.line (linkAlpha M r a b) a.x a.y b.x b.y] else [])
      ++ linksFrom M r a bs

/-- The outer loop of the link pass (source lines 128-145). -/
def drawLinks (M : JSMath K) (r : K) : List (Particle K) → List (Draw K)
  | [] => []
  | a :: ps => linksFrom M r a ps ++ drawLinks M r ps

/-- Spring back to home (source lines 152-153). -/
def applySpring (cfg : Config K) (p : Particle K) : Particle K :=
  { p with
    vx := p.vx + (p.homeX - p.x) * cfg.springHome
    vy := p.vy + (p.homeY - p.y) * cfg.springHome }

/-- Random drift (source lines 156-157); `u1`, `u2` are the two
`Math.random()` draws. -/
def applyDrift (cfg : Config K) (u1 u2 : K) (p : Particle K) : Particle K :=
  { p with
    vx := p.vx + rand u1 (-cfg.drift) cfg.drift
    vy := p.vy + rand u2 (-cfg.drift) cfg.drift }

/-- The divisor `dist || 1` (source lines 166-167): `1` when `dist` is `0`. -/
def orOne (dist : K) : K :=
  if dist = 0 then 1 else dist

/-- The constant `force` (source line 165). -/
def attractForce (cfg : Config K) (dist : K) : K :=
  (1 - dist / cfg.attractRadius) * cfg.attractStrength

/-- Mouse attraction (source lines 160-169). -/
def applyAttraction (M : JSMath K) (cfg : Config K) (mouse : Mouse K) (p : Particle K) :
    Particle K :=
  if mouse.active then
    let dx := mouse.x - p.x
    let dy := mouse.y - p.y
    let dist := M.hypot dx dy
    if dist < cfg.attractRadius then
      let force := attractForce cfg dist
      { p with
        vx := p.vx + (dx / orOne dist) * force
        vy := p.vy + (dy / orOne dist) * force }
    else p
  else p

/-- The velocity updates of one frame up to the clamp (source lines 152-169):
spring, drift, attraction, in this order. -/
def applyForces (M : JSMath K) (cfg : Config K) (mouse : Mouse K) (u1 u2 : K)
    (p : Particle K) : Particle K :=
  applyAttraction M cfg mouse (applyDrift cfg u1 u2 (applySpring cfg p))

/-- Clamp speed (source lines 172-176). -/
def clampSpeed (M : JSMath K) (cfg : Config K) (p : Particle K) : Particle K :=
  let speed := M.hypot p.vx p.vy
  if speed > cfg.maxSpeed then
    { p with
      vx := (p.vx / speed) * cfg.maxSpeed
      vy := (p.vy / speed) * cfg.maxSpeed }
  else p

/-- Integrate (source lines 179-180). -/
def integrate (p : Particle K) : Particle K :=
  { p with x := p.x + p.vx, y := p.y + p.vy }

/-- The two wrap tests on one coordinate (source lines 183-184 with
`bound = w`, lines 185-186 with `bound = h`); the second test reads the
result of the first. -/
def wrapCoord (bound x : K) : K :=
  let x1 := if x < -20 then bound + 20 else x
  if x1 > bound + 20 then -20 else x1

/-- Soft wrap around edges (source lines 183-186). -/
def softWrap (w h : K) (p : Particle K) : Particle K :=
  { p with x := wrapCoord w p.x, y := wrapCoord h p.y }

/-- The body of the loop over the particles (source lines 150-187), without
the drawing; the two drift draws are `Math.random()` calls `t` and `t + 1`. -/
def updateParticle (M : JSMath K) (cfg : Config K) (w h : K) (mouse : Mouse K) (t : ℕ)
    (p : Particle K) : Particle K :=
  softWrap w h (integrate (clampSpeed M cfg
    (applyForces M cfg mouse (M.random t) (M.random (t + 1)) p)))

/-- The loop over the particles (source lines 150-195): the updated
particles and the disc each one is drawn as. -/
def updateAll (M : JSMath K) (cfg : Config K) (w h : K) (mouse : Mouse K) :
    List (Particle K) → ℕ → List (Particle K) × List (Draw K)
  | [], _ => ([], [])
  | p :: ps, t =>
    let q := updateParticle M cfg w h mouse t p
    let r := updateAll M cfg w h mouse ps (t + 2)
    (q :: r.1, Draw.arc cfg.particleOpacity q.x q.y q.size :: r.2)

/-- One call of `step` (source lines 121-198): the next state and what the
frame paints on the cleared canvas, links first. -/
def step (M : JSMath K) (cfg : Config K) (s : World K) : World K × List (Draw K) :=
  let links := if cfg.linkRadius > 0 then drawLinks M cfg.linkRadius s.particles else []
  let r := updateAll M cfg s.w s.h s.mouse s.particles s.tick
  ({ s with particles := r.1, tick := s.tick + 2 * s.particles.length }, links ++ r.2)

/-- The real-number host: `Math.sqrt` is the real square root and
`Math.hypot(a, b)` is `sqrt(a * a + b * b)`. -/
noncomputable def realMath (random : ℕ → ℝ) : JSMath ℝ where
  sqrt := Real.sqrt
  hypot := fun a b => Real.sqrt (a * a + b * b)
  random := random

/-! ## Lemmas on particle creation -/

/-- The push loop appends to the array exactly the particles created at the
successive random-call offsets, and advances the call counter by five each. -/
theorem pushParticles_eq (M : JSMath K) (cfg : Config K) (w h : K) (n : ℕ)
    (ps : List (Particle K)) (t : ℕ) :
    pushParticles M cfg w h n ps t =
      (ps ++ (List.range n).map (fun i => createParticle M cfg w h (t + 5 * i)), t + 5 * n) := by
  induction n generalizing ps t with
  | zero => simp [pushParticles]
  | succ n ih =>
    rw [pushParticles, ih, List.range_succ_eq_map]
    simp only [List.map_cons, List.map_map, List.append_assoc, List.singleton_append,
      Nat.mul_zero, Nat.add_zero, Prod.mk.injEq]
    refine ⟨?_, by ring⟩
    congr 2
    apply List.map_congr_left
    intro i _
    simp only [Function.comp_apply]
    congr 1
    omega

theorem pushParticles_length (M : JSMath K) (cfg : Config K) (w h : K) (n : ℕ)
    (ps : List (Particle K)) (t : ℕ) :
    (pushParticles M cfg w h n ps t).1.length = ps.length + n := by
  simp [pushParticles_eq]

/-- The target count is never negative: it is at least `min maxParticles 40`. -/
theorem targetParticleCount_nonneg [FloorRing K] (cfg : Config K) (w h : K) :
    0 ≤ targetParticleCount cfg w h := by
  unfold targetParticleCount
  apply le_min
  · exact Int.natCast_nonneg _
  · exact le_trans (by norm_num) (le_max_left _ _)

/-- With a cap of at least `40`, `Math.min(cap, Math.max(40, v))` is
`clamp(v, 40, cap)`. -/
theorem min_max_eq_clamp (v cap : ℤ) (hcap : 40 ≤ cap) :
    min cap (max 40 v) = clamp v 40 cap := by
  unfold clamp
  split_ifs with h1 h2
  · rw [max_eq_left h1.le, min_eq_right hcap]
  · rw [max_eq_right (not_lt.mp h1), min_eq_left h2.le]
  · rw [max_eq_right (not_lt.mp h1), min_eq_right (not_lt.mp h2)]

theorem initParticles_length [FloorRing K] (M : JSMath K) (cfg : Config K) (s : World K) :
    ((initParticles M cfg s).particles.length : ℤ) = targetParticleCount cfg s.w s.h := by
  simp [initParticles, pushParticles_length, targetParticleCount_nonneg]

theorem onResize_length [FloorRing K] (M : JSMath K) (cfg : Config K) (s : World K) (w h : K) :
    ((onResize M cfg s w h).particles.length : ℤ) = targetParticleCount cfg w h := by
  have h0 := targetParticleCount_nonneg cfg w h
  unfold onResize
  simp only
  split_ifs with h1 h2
  · simp only [pushParticles_length]
    push_cast
    rw [Int.toNat_of_nonneg (by omega)]
    ring
  · simp only [List.length_take]
    omega
  · show (s.particles.length : ℤ) = targetParticleCount cfg w h
    omega

theorem floor_shipped_scenario [FloorRing K] : ⌊((800 : K) * 600) / 10000⌋ = 48 := by
  rw [Int.floor_eq_iff]
  constructor <;> norm_num

/-! ## Inputs used to instantiate the theorems -/

/-- A host over `ℚ` whose `Math.random()` always returns `1/2` (the values of
`sqrt` and `hypot` are only placeholders; no statement about them uses it). -/
def demoMath : JSMath ℚ where
  sqrt := fun x => x
  hypot := fun a b => |a| + |b|
  random := fun _ => 1 / 2

/-- The state at script start for an 800 by 600 window. -/
def demoWorld : World ℚ where
  w := 800
  h := 600
  particles := []
  mouse := { x := -9999, y := -9999, active := false }
  tick := 0

/-! ## Particle count (C1) and the resize frame (C4) -/

/-- Claim C1. For a configuration whose cap `maxParticles` is at least the
floor `40`, the number of particles after `initParticles`, and after a resize
event from any state `s` (whatever its particle list), is
`clamp(floor(w * h / areaPerParticle), 40, maxParticles)`, `clamp` being the
script's own function; with `areaPerParticle = 10000`, `maxParticles = 240`
and an 800 by 600 viewport, `initParticles` leaves exactly 48 particles. -/
theorem particle_count_eq_clamp [FloorRing K] (M : JSMath K) (cfg : Config K) (s : World K)
    (w h : K) (hcap : 40 ≤ cfg.maxParticles) :
    ((initParticles M cfg s).particles.length : ℤ)
        = clamp ⌊(s.w * s.h) / cfg.areaPerParticle⌋ 40 (cfg.maxParticles : ℤ)
      ∧ ((onResize M cfg s w h).particles.length : ℤ)
        = clamp ⌊(w * h) / cfg.areaPerParticle⌋ 40 (cfg.maxParticles : ℤ)
      ∧ (cfg.areaPerParticle = 10000 → cfg.maxParticles = 240 → s.w = 800 → s.h = 600 →
          (initParticles M cfg s).particles.length = 48) := by
  have hcap' : (40 : ℤ) ≤ (cfg.maxParticles : ℤ) := by exact_mod_cast hcap
  refine ⟨?_, ?_, ?_⟩
  · rw [initParticles_length, targetParticleCount, min_max_eq_clamp _ _ hcap']
  · rw [onResize_length, targetParticleCount, min_max_eq_clamp _ _ hcap']
  · intro hA hM hw hh
    have hlen := initParticles_length M cfg s
    rw [targetParticleCount, hA, hM, hw, hh, floor_shipped_scenario] at hlen
    have h48 : min ((240 : ℕ) : ℤ) (max 40 48) = 48 := by decide
    rw [h48] at hlen
    exact_mod_cast hlen

/-- The shipped configuration on an 800 by 600 window starts with 48
particles, and a resize to 1920 by 1080 brings the count to 207. -/
theorem particle_count_eq_clamp_witness :
    40 ≤ (CONFIG ℚ).maxParticles
      ∧ (initParticles demoMath (CONFIG ℚ) demoWorld).particles.length = 48
      ∧ ((onResize demoMath (CONFIG ℚ) demoWorld 1920 1080).particles.length : ℤ)
          = clamp ⌊((1920 : ℚ) * 1080) / (CONFIG ℚ).areaPerParticle⌋ 40 240 :=
  ⟨by simp [CONFIG],
   (particle_count_eq_clamp demoMath (CONFIG ℚ) demoWorld 1920 1080 (by simp [CONFIG])).2.2
      rfl rfl rfl rfl,
   (particle_count_eq_clamp demoMath (CONFIG ℚ) demoWorld 1920 1080 (by simp [CONFIG])).2.1⟩

/-- Claim C4. A resize never alters existing particles. With `d` the desired
count (never negative), the new list has the old list's first
`min (old length) d` particles as its prefix; when `d` exceeds the old
length the new list is the old list followed by `d - old length` freshly
created particles; when `d` is below the old length it is the old list
truncated to its first `d` particles; when they are equal it is the old
list. -/
theorem onResize_frame [FloorRing K] (M : JSMath K) (cfg : Config K) (s : World K) (w h : K) :
    0 ≤ targetParticleCount cfg w h
      ∧ s.particles.take (min s.particles.length (targetParticleCount cfg w h).toNat)
          <+: (onResize M cfg s w h).particles
      ∧ ((s.particles.length : ℤ) < targetParticleCount cfg w h →
          (onResize M cfg s w h).particles = s.particles ++
            (List.range ((targetParticleCount cfg w h).toNat - s.particles.length)).map
              (fun i => createParticle M cfg w h (s.tick + 5 * i)))
      ∧ (targetParticleCount cfg w h < (s.particles.length : ℤ) →
          (onResize M cfg s w h).particles
            = s.particles.take (targetParticleCount cfg w h).toNat)
      ∧ (targetParticleCount cfg w h = (s.particles.length : ℤ) →
          (onResize M cfg s w h).particles = s.particles) := by
  have h0 := targetParticleCount_nonneg cfg w h
  have hgrow : (s.particles.length : ℤ) < targetParticleCount cfg w h →
      (onResize M cfg s w h).particles = s.particles ++
        (List.range ((targetParticleCount cfg w h).toNat - s.particles.length)).map
          (fun i => createParticle M cfg w h (s.tick + 5 * i)) := by
    intro hlt
    have hn : (targetParticleCount cfg w h - (s.particles.length : ℤ)).toNat
        = (targetParticleCount cfg w h).toNat - s.particles.length := by omega
    simp only [onResize, gt_iff_lt, hlt, if_true, pushParticles_eq, hn]
  have hshrink : targetParticleCount cfg w h < (s.particles.length : ℤ) →
      (onResize M cfg s w h).particles
        = s.particles.take (targetParticleCount cfg w h).toNat := by
    intro hlt
    simp only [onResize, gt_iff_lt, not_lt.mpr hlt.le, if_false, hlt, if_true]
  have hsame : targetParticleCount cfg w h = (s.particles.length : ℤ) →
      (onResize M cfg s w h).particles = s.particles := by
    intro heq
    simp only [onResize, gt_iff_lt, heq, lt_irrefl, if_false]
  refine ⟨h0, ?_, hgrow, hshrink, hsame⟩
  rcases lt_trichotomy (s.particles.length : ℤ) (targetParticleCount cfg w h) with hlt | heq | hgt
  · rw [hgrow hlt, min_eq_left (by omega), List.take_length]
    exact List.prefix_append _ _
  · rw [hsame heq.symm, min_eq_left (by omega), List.take_length]
  · rw [hshrink hgt, min_eq_right (by omega)]

/-! ## Lemmas on the frame update -/

/-- Every particle in the list after the update loop is `updateParticle` of a
particle of the list before it. -/
theorem mem_updateAll (M : JSMath K) (cfg : Config K) (w h : K) (mouse : Mouse K)
    (ps : List (Particle K)) (t : ℕ) (q : Particle K)
    (hq : q ∈ (updateAll M cfg w h mouse ps t).1) :
    ∃ p ∈ ps, ∃ t', q = updateParticle M cfg w h mouse t' p := by
  induction ps generalizing t with
  | nil => simp [updateAll] at hq
  | cons p ps ih =>
    simp only [updateAll, List.mem_cons] at hq
    rcases hq with rfl | hq
    · exact ⟨p, List.mem_cons_self _ _, t, rfl⟩
    · obtain ⟨p', hp', t', ht'⟩ := ih (t + 2) hq
      exact ⟨p', List.mem_cons_of_mem _ hp', t', ht'⟩

theorem updateParticle_vx (M : JSMath K) (cfg : Config K) (w h : K) (mouse : Mouse K) (t : ℕ)
    (p : Particle K) :
    (updateParticle M cfg w h mouse t p).vx
      = (clampSpeed M cfg (applyForces M cfg mouse (M.random t) (M.random (t + 1)) p)).vx :=
  rfl

theorem updateParticle_vy (M : JSMath K) (cfg : Config K) (w h : K) (mouse : Mouse K) (t : ℕ)
    (p : Particle K) :
    (updateParticle M cfg w h mouse t p).vy
      = (clampSpeed M cfg (applyForces M cfg mouse (M.random t) (M.random (t + 1)) p)).vy :=
  rfl

/-- Both wrap tests done, a coordinate lies within the margin of 20 around
`[0, bound]`. -/
theorem wrapCoord_bounds (bound x : K) (hb : 0 ≤ bound) :
    -20 ≤ wrapCoord bound x ∧ wrapCoord bound x ≤ bound + 20 := by
  unfold wrapCoord
  simp only
  split_ifs with h1 h2 h3 <;> constructor <;> linarith

theorem wrapCoord_of_gt (bound x : K) (hb : 0 ≤ bound) (hx : bound + 20 < x) :
    wrapCoord bound x = -20 := by
  have h1 : ¬ x < -20 := by linarith
  unfold wrapCoord
  simp only [h1, if_false, gt_iff_lt, hx, if_true]

theorem wrapCoord_of_lt (bound x : K) (hx : x < -20) :
    wrapCoord bound x = bound + 20 := by
  unfold wrapCoord
  simp only [hx, if_true, gt_iff_lt, lt_irrefl, if_false]

theorem wrapCoord_of_mem (bound x : K) (hlo : -20 ≤ x) (hhi : x ≤ bound + 20) :
    wrapCoord bound x = x := by
  unfold wrapCoord
  simp only [not_lt.mpr hlo, if_false, gt_iff_lt, not_lt.mpr hhi]

/-- Rescaling a vector of length `S` by `m / S` gives a vector of squared
length `m ^ 2`. -/
theorem rescale_sq (vx vy S m : ℝ) (hS : 0 < S) (hS2 : S ^ 2 = vx ^ 2 + vy ^ 2) :
    (vx / S * m) ^ 2 + (vy / S * m) ^ 2 = m ^ 2 := by
  have hne : S ≠ 0 := hS.ne.symm
  field_simp
  rw [hS2]
  ring

/-- The speed the clamp leaves, over the reals: the cap when the speed
exceeded it, the speed itself otherwise. -/
theorem real_speed_after_clamp (random : ℕ → ℝ) (cfg : Config ℝ) (p : Particle ℝ)
    (hpos : 0 ≤ cfg.maxSpeed) :
    Real.sqrt ((clampSpeed (realMath random) cfg p).vx ^ 2
        + (clampSpeed (realMath random) cfg p).vy ^ 2)
      = min (Real.sqrt (p.vx ^ 2 + p.vy ^ 2)) cfg.maxSpeed := by
  have hsq : p.vx * p.vx + p.vy * p.vy = p.vx ^ 2 + p.vy ^ 2 := by ring
  unfold clampSpeed
  simp only [realMath, hsq]
  by_cases hgt : Real.sqrt (p.vx ^ 2 + p.vy ^ 2) > cfg.maxSpeed
  · rw [if_pos hgt, min_eq_right hgt.le]
    have hS : 0 < Real.sqrt (p.vx ^ 2 + p.vy ^ 2) := lt_of_le_of_lt hpos hgt
    have hS2 : Real.sqrt (p.vx ^ 2 + p.vy ^ 2) ^ 2 = p.vx ^ 2 + p.vy ^ 2 :=
      Real.sq_sqrt (by positivity)
    rw [rescale_sq _ _ _ _ hS hS2, Real.sqrt_sq hpos]
  · rw [if_neg hgt, min_eq_left (not_lt.mp hgt)]

/-! ## Speed clamp (C2, C10) -/

/-- Claim C2. Over the reals, with `maxSpeed > 0`: whatever the velocity of a
particle before the clamp step, after it `sqrt(vx^2 + vy^2) <= maxSpeed`; and
so every particle of the state a call of `step` leaves has speed at most
`maxSpeed`. -/
theorem speed_le_maxSpeed_after_clamp (random : ℕ → ℝ) (cfg : Config ℝ) (s : World ℝ)
    (p : Particle ℝ) (hpos : 0 < cfg.maxSpeed) :
    Real.sqrt ((clampSpeed (realMath random) cfg p).vx ^ 2
        + (clampSpeed (realMath random) cfg p).vy ^ 2) ≤ cfg.maxSpeed
      ∧ ∀ q ∈ (step (realMath random) cfg s).1.particles,
          Real.sqrt (q.vx ^ 2 + q.vy ^ 2) ≤ cfg.maxSpeed := by
  have hclamp : ∀ p' : Particle ℝ,
      Real.sqrt ((clampSpeed (realMath random) cfg p').vx ^ 2
        + (clampSpeed (realMath random) cfg p').vy ^ 2) ≤ cfg.maxSpeed := by
    intro p'
    rw [real_speed_after_clamp random cfg p' hpos.le]
    exact min_le_right _ _
  refine ⟨hclamp p, ?_⟩
  intro q hq
  obtain ⟨p', _, t', rfl⟩ := mem_updateAll _ _ _ _ _ _ _ _ hq
  rw [updateParticle_vx, updateParticle_vy]
  exact hclamp _

/-- A particle moving at speed 5 under the shipped cap 1.6. -/
theorem speed_le_maxSpeed_after_clamp_witness :
    0 < (CONFIG ℝ).maxSpeed
      ∧ Real.sqrt
          ((clampSpeed (realMath fun _ => 0) (CONFIG ℝ)
              { x := 0, y := 0, vx := 3, vy := 4, size := 2, homeX := 0, homeY := 0 }).vx ^ 2
          + (clampSpeed (realMath fun _ => 0) (CONFIG ℝ)
              { x := 0, y := 0, vx := 3, vy := 4, size := 2, homeX := 0, homeY := 0 }).vy ^ 2)
        ≤ (CONFIG ℝ).maxSpeed :=
  ⟨by norm_num [CONFIG],
   (speed_le_maxSpeed_after_clamp (fun _ => 0) (CONFIG ℝ)
      { w := 800, h := 600, particles := [], mouse := { x := 0, y := 0, active := false },
        tick := 0 }
      { x := 0, y := 0, vx := 3, vy := 4, size := 2, homeX := 0, homeY := 0 }
      (by norm_num [CONFIG])).1⟩

/-- Claim C10. Over the reals, with `maxSpeed > 0`: when the speed
`|v| = sqrt(vx^2 + vy^2)` exceeds `maxSpeed`, the clamp step replaces the
velocity `v` by `(maxSpeed / |v|) * v`, the factor is positive and the new
speed is exactly `maxSpeed`; when `|v| <= maxSpeed` the particle is left
unchanged. -/
theorem clampSpeed_preserves_direction (random : ℕ → ℝ) (cfg : Config ℝ) (p : Particle ℝ)
    (hpos : 0 < cfg.maxSpeed) :
    (cfg.maxSpeed < Real.sqrt (p.vx ^ 2 + p.vy ^ 2) →
        clampSpeed (realMath random) cfg p =
          { p with
            vx := cfg.maxSpeed / Real.sqrt (p.vx ^ 2 + p.vy ^ 2) * p.vx
            vy := cfg.maxSpeed / Real.sqrt (p.vx ^ 2 + p.vy ^ 2) * p.vy }
          ∧ 0 < cfg.maxSpeed / Real.sqrt (p.vx ^ 2 + p.vy ^ 2)
          ∧ Real.sqrt ((clampSpeed (realMath random) cfg p).vx ^ 2
              + (clampSpeed (realMath random) cfg p).vy ^ 2) = cfg.maxSpeed)
      ∧ (Real.sqrt (p.vx ^ 2 + p.vy ^ 2) ≤ cfg.maxSpeed →
          clampSpeed (realMath random) cfg p = p) := by
  have hsq : p.vx * p.vx + p.vy * p.vy = p.vx ^ 2 + p.vy ^ 2 := by ring
  constructor
  · intro hgt
    refine ⟨?_, div_pos hpos (lt_trans hpos hgt), ?_⟩
    · unfold clampSpeed
      simp only [realMath, hsq, gt_iff_lt, hgt, if_true]
      congr 1 <;> ring
    · rw [real_speed_after_clamp random cfg p hpos.le]
      exact min_eq_right hgt.le
  · intro hle
    unfold clampSpeed
    simp only [realMath, hsq, gt_iff_lt, not_lt.mpr hle, if_false]

/-- The velocity (3, 4), of speed 5, exceeds the shipped cap 1.6 and is
scaled by `1.6 / 5`, to speed exactly 1.6. -/
theorem clampSpeed_preserves_direction_witness :
    0 < (CONFIG ℝ).maxSpeed
      ∧ (CONFIG ℝ).maxSpeed < Real.sqrt ((3 : ℝ) ^ 2 + 4 ^ 2)
      ∧ clampSpeed (realMath fun _ => 0) (CONFIG ℝ)
            { x := 0, y := 0, vx := 3, vy := 4, size := 2, homeX := 0, homeY := 0 }
          = { x := 0, y := 0, size := 2, homeX := 0, homeY := 0
              vx := (CONFIG ℝ).maxSpeed / Real.sqrt ((3 : ℝ) ^ 2 + 4 ^ 2) * 3
              vy := (CONFIG ℝ).maxSpeed / Real.sqrt ((3 : ℝ) ^ 2 + 4 ^ 2) * 4 } :=
  ⟨by norm_num [CONFIG],
   by rw [Real.lt_sqrt (by norm_num [CONFIG])]; norm_num [CONFIG],
   ((clampSpeed_preserves_direction (fun _ => 0) (CONFIG ℝ)
      { x := 0, y := 0, vx := 3, vy := 4, size := 2, homeX := 0, homeY := 0 }
      (by norm_num [CONFIG])).1
      (by rw [Real.lt_sqrt (by norm_num [CONFIG])]; norm_num [CONFIG])).1⟩

/-! ## Soft wrap (C3, C8) -/

/-- Claim C3. For a viewport with `w >= 0` and `h >= 0`, whatever the position
after integration, the position after the wrap step satisfies
`-20 <= x <= w + 20` and `-20 <= y <= h + 20`; and so does every particle of
the state a call of `step` leaves. -/
theorem softWrap_within_margin (M : JSMath K) (cfg : Config K) (s : World K) (p : Particle K)
    (hw : 0 ≤ s.w) (hh : 0 ≤ s.h) :
    (-20 ≤ (softWrap s.w s.h p).x ∧ (softWrap s.w s.h p).x ≤ s.w + 20
        ∧ -20 ≤ (softWrap s.w s.h p).y ∧ (softWrap s.w s.h p).y ≤ s.h + 20)
      ∧ ∀ q ∈ (step M cfg s).1.particles,
          -20 ≤ q.x ∧ q.x ≤ s.w + 20 ∧ -20 ≤ q.y ∧ q.y ≤ s.h + 20 := by
  have hwrap : ∀ p' : Particle K,
      -20 ≤ (softWrap s.w s.h p').x ∧ (softWrap s.w s.h p').x ≤ s.w + 20
        ∧ -20 ≤ (softWrap s.w s.h p').y ∧ (softWrap s.w s.h p').y ≤ s.h + 20 := fun p' =>
    ⟨(wrapCoord_bounds s.w p'.x hw).1, (wrapCoord_bounds s.w p'.x hw).2,
     (wrapCoord_bounds s.h p'.y hh).1, (wrapCoord_bounds s.h p'.y hh).2⟩
  refine ⟨hwrap p, ?_⟩
  intro q hq
  obtain ⟨p', _, t', rfl⟩ := mem_updateAll _ _ _ _ _ _ _ _ hq
  exact hwrap _

/-- A particle that left the 800 by 600 viewport on the right and at the top. -/
theorem softWrap_within_margin_witness :
    (0 : ℚ) ≤ demoWorld.w ∧ (0 : ℚ) ≤ demoWorld.h
      ∧ (-20 ≤ (softWrap demoWorld.w demoWorld.h
            { x := 825, y := -31, vx := 1, vy := -1, size := 2, homeX := 5, homeY := 5 }).x
        ∧ (softWrap demoWorld.w demoWorld.h
            { x := 825, y := -31, vx := 1, vy := -1, size := 2, homeX := 5, homeY := 5 }).x
          ≤ demoWorld.w + 20
        ∧ -20 ≤ (softWrap demoWorld.w demoWorld.h
            { x := 825, y := -31, vx := 1, vy := -1, size := 2, homeX := 5, homeY := 5 }).y
        ∧ (softWrap demoWorld.w demoWorld.h
            { x := 825, y := -31, vx := 1, vy := -1, size := 2, homeX := 5, homeY := 5 }).y
          ≤ demoWorld.h + 20) :=
  ⟨by norm_num [demoWorld], by norm_num [demoWorld],
   (softWrap_within_margin demoMath (CONFIG ℚ) demoWorld
      { x := 825, y := -31, vx := 1, vy := -1, size := 2, homeX := 5, homeY := 5 }
      (by norm_num [demoWorld]) (by norm_num [demoWorld])).1⟩

/-- Claim C8. For a viewport with `w >= 0` and `h >= 0`, the wrap step sends
every `x > w + 20` to `-20` and every `x < -20` to `w + 20`, and leaves every
`x` with `-20 <= x <= w + 20` unchanged; likewise for `y` with `h`; in
particular `x = w + 25` becomes `-20`. -/
theorem softWrap_cases (w h : K) (p : Particle K) (hw : 0 ≤ w) (hh : 0 ≤ h) :
    (w + 20 < p.x → (softWrap w h p).x = -20)
      ∧ (p.x < -20 → (softWrap w h p).x = w + 20)
      ∧ (-20 ≤ p.x → p.x ≤ w + 20 → (softWrap w h p).x = p.x)
      ∧ (h + 20 < p.y → (softWrap w h p).y = -20)
      ∧ (p.y < -20 → (softWrap w h p).y = h + 20)
      ∧ (-20 ≤ p.y → p.y ≤ h + 20 → (softWrap w h p).y = p.y)
      ∧ (p.x = w + 25 → (softWrap w h p).x = -20) := by
  refine ⟨wrapCoord_of_gt w p.x hw, wrapCoord_of_lt w p.x, wrapCoord_of_mem w p.x,
    wrapCoord_of_gt h p.y hh, wrapCoord_of_lt h p.y, wrapCoord_of_mem h p.y, ?_⟩
  intro hx
  exact wrapCoord_of_gt w p.x hw (by rw [hx]; linarith)

/-- On an 800 by 600 viewport, `x = 825` becomes `-20` and `y = -31` becomes
`620`. -/
theorem softWrap_cases_witness :
    (0 : ℚ) ≤ 800 ∧ (0 : ℚ) ≤ 600
      ∧ (softWrap (800 : ℚ) 600
          { x := 825, y := -31, vx := 1, vy := -1, size := 2, homeX := 5, homeY := 5 }).x = -20
      ∧ (softWrap (800 : ℚ) 600
          { x := 825, y := -31, vx := 1, vy := -1, size := 2, homeX := 5, homeY := 5 }).y
        = 600 + 20 :=
  ⟨by norm_num, by norm_num,
   (softWrap_cases (800 : ℚ) 600
      { x := 825, y := -31, vx := 1, vy := -1, size := 2, homeX := 5, homeY := 5 }
      (by norm_num) (by norm_num)).2.2.2.2.2.2 (by norm_num),
   (softWrap_cases (800 : ℚ) 600
      { x := 825, y := -31, vx := 1, vy := -1, size := 2, homeX := 5, homeY := 5 }
      (by norm_num) (by norm_num)).2.2.2.2.1 (by norm_num)⟩

/-! ## Pointer attraction (C5, C9) -/

/-- Claim C5. While `mouse.active` is false, whatever the stored pointer
coordinates, the attraction step changes no particle, and the velocity before
the clamp step is the old velocity plus the spring-home term and the drift
term only; the `mouseleave` listener leaves the pointer inactive. -/
theorem no_attraction_when_inactive (M : JSMath K) (cfg : Config K) (mouse : Mouse K)
    (u1 u2 : K) (p : Particle K) (s : World K) (hoff : mouse.active = false) :
    applyAttraction M cfg mouse p = p
      ∧ (applyForces M cfg mouse u1 u2 p).vx
          = p.vx + (p.homeX - p.x) * cfg.springHome + rand u1 (-cfg.drift) cfg.drift
      ∧ (applyForces M cfg mouse u1 u2 p).vy
          = p.vy + (p.homeY - p.y) * cfg.springHome + rand u2 (-cfg.drift) cfg.drift
      ∧ (onMouseLeave s).mouse.active = false := by
  have hid : ∀ q : Particle K, applyAttraction M cfg mouse q = q := by
    intro q
    simp [applyAttraction, hoff]
  refine ⟨hid p, ?_, ?_, rfl⟩
  · rw [applyForces, hid]
    rfl
  · rw [applyForces, hid]
    rfl

/-- A particle sitting 10 units from a stale, inactive pointer position. -/
theorem no_attraction_when_inactive_witness :
    (Mouse.mk (110 : ℚ) 100 false).active = false
      ∧ applyAttraction demoMath (CONFIG ℚ) (Mouse.mk 110 100 false)
          { x := 100, y := 100, vx := 0, vy := 0, size := 2, homeX := 90, homeY := 100 }
        = { x := 100, y := 100, vx := 0, vy := 0, size := 2, homeX := 90, homeY := 100 } :=
  ⟨rfl,
   (no_attraction_when_inactive demoMath (CONFIG ℚ) (Mouse.mk 110 100 false) (1 / 2) (1 / 2)
      { x := 100, y := 100, vx := 0, vy := 0, size := 2, homeX := 90, homeY := 100 }
      demoWorld rfl).1⟩

/-- Over the reals `Math.hypot(dx, dy)` is `sqrt(dx^2 + dy^2)`. -/
theorem realMath_hypot (random : ℕ → ℝ) (a b : ℝ) :
    (realMath random).hypot a b = Real.sqrt (a ^ 2 + b ^ 2) := by
  simp only [realMath, sq]

/-- The divisor `dist || 1` is never zero. -/
theorem orOne_ne_zero (d : K) : orOne d ≠ 0 := by
  unfold orOne
  split_ifs with h
  · exact one_ne_zero
  · exact h

/-- With the pointer on the particle, `dx` and `dy` are zero, the distance is
zero, and the attraction step adds `(0 / 1) * force = 0` to each velocity
component: the particle is unchanged. -/
theorem applyAttraction_at_pointer (random : ℕ → ℝ) (cfg : Config ℝ) (mouse : Mouse ℝ)
    (p : Particle ℝ) (hx : mouse.x = p.x) (hy : mouse.y = p.y) :
    applyAttraction (realMath random) cfg mouse p = p := by
  unfold applyAttraction
  simp only [hx, hy, sub_self, zero_div, zero_mul, add_zero]
  split_ifs <;> rfl

/-- Claim C9. With the pointer active and `dist = sqrt(dx^2 + dy^2)` the
distance from the particle to the pointer (`dx = mouse.x - p.x`,
`dy = mouse.y - p.y`): when `0 < dist < attractRadius` the attraction step
adds to the velocity the vector `(dx / dist, dy / dist)`, of length 1, scaled
by `(1 - dist / attractRadius) * attractStrength`; when
`dist >= attractRadius` it changes nothing. -/
theorem attraction_term (random : ℕ → ℝ) (cfg : Config ℝ) (mouse : Mouse ℝ) (p : Particle ℝ)
    (hact : mouse.active = true) :
    (0 < Real.sqrt ((mouse.x - p.x) ^ 2 + (mouse.y - p.y) ^ 2) →
      Real.sqrt ((mouse.x - p.x) ^ 2 + (mouse.y - p.y) ^ 2) < cfg.attractRadius →
        applyAttraction (realMath random) cfg mouse p =
          { p with
            vx := p.vx + (mouse.x - p.x) / Real.sqrt ((mouse.x - p.x) ^ 2 + (mouse.y - p.y) ^ 2)
              * ((1 - Real.sqrt ((mouse.x - p.x) ^ 2 + (mouse.y - p.y) ^ 2) / cfg.attractRadius)
                  * cfg.attractStrength)
            vy := p.vy + (mouse.y - p.y) / Real.sqrt ((mouse.x - p.x) ^ 2 + (mouse.y - p.y) ^ 2)
              * ((1 - Real.sqrt ((mouse.x - p.x) ^ 2 + (mouse.y - p.y) ^ 2) / cfg.attractRadius)
                  * cfg.attractStrength) }
          ∧ ((mouse.x - p.x) / Real.sqrt ((mouse.x - p.x) ^ 2 + (mouse.y - p.y) ^ 2)) ^ 2
              + ((mouse.y - p.y) / Real.sqrt ((mouse.x - p.x) ^ 2 + (mouse.y - p.y) ^ 2)) ^ 2
            = 1)
      ∧ (cfg.attractRadius ≤ Real.sqrt ((mouse.x - p.x) ^ 2 + (mouse.y - p.y) ^ 2) →
          applyAttraction (realMath random) cfg mouse p = p) := by
  constructor
  · intro hpos hlt
    have hne : Real.sqrt ((mouse.x - p.x) ^ 2 + (mouse.y - p.y) ^ 2) ≠ 0 := hpos.ne.symm
    constructor
    · unfold applyAttraction
      simp only [hact, if_true, realMath_hypot, hlt, orOne, hne, if_false, attractForce]
    · have hS2 : Real.sqrt ((mouse.x - p.x) ^ 2 + (mouse.y - p.y) ^ 2) ^ 2
          = (mouse.x - p.x) ^ 2 + (mouse.y - p.y) ^ 2 := Real.sq_sqrt (by positivity)
      have h := rescale_sq (mouse.x - p.x) (mouse.y - p.y) _ 1 hpos hS2
      simpa using h
  · intro hge
    unfold applyAttraction
    simp only [hact, if_true, realMath_hypot, not_lt.mpr hge, if_false]

/-- The active pointer at (103, 104), a particle at (100, 100): distance 5,
inside the shipped radius 140. -/
theorem attraction_term_witness :
    (Mouse.mk (103 : ℝ) 104 true).active = true
      ∧ ((3 : ℝ) / Real.sqrt ((103 - 100) ^ 2 + (104 - 100) ^ 2)) ^ 2
          + ((4 : ℝ) / Real.sqrt ((103 - 100) ^ 2 + (104 - 100) ^ 2)) ^ 2 = 1 := by
  have hD : Real.sqrt (((103 : ℝ) - 100) ^ 2 + (104 - 100) ^ 2) = 5 := by
    rw [show ((103 : ℝ) - 100) ^ 2 + (104 - 100) ^ 2 = 5 ^ 2 by norm_num]
    exact Real.sqrt_sq (by norm_num)
  have h := (attraction_term (fun _ => 0) (CONFIG ℝ) (Mouse.mk 103 104 true)
    { x := 100, y := 100, vx := 0, vy := 0, size := 2, homeX := 100, homeY := 100 } rfl).1
    (by simp only [hD]; norm_num) (by simp only [hD]; norm_num [CONFIG])
  refine ⟨rfl, ?_⟩
  have h2 := h.2
  norm_num at h2 ⊢
  exact h2

/-! ## Pointer on the particle (C7) -/

/-- Claim C7, as the code has it. With the pointer active and on the particle
the distance is `0` and the divisor `dist || 1` is `1` (it is never `0`); for
`attractRadius > 0` the attraction branch runs with `force = attractStrength`
and adds `(dx / 1) * attractStrength`, `(dy / 1) * attractStrength` to the
velocity; `dx` and `dy` being `0`, the vector added is zero: the particle, its
velocity included, is unchanged. -/
theorem attraction_at_zero_distance (random : ℕ → ℝ) (cfg : Config ℝ) (mouse : Mouse ℝ)
    (p : Particle ℝ) (hact : mouse.active = true) (hx : mouse.x = p.x) (hy : mouse.y = p.y) :
    (realMath random).hypot (mouse.x - p.x) (mouse.y - p.y) = 0
      ∧ orOne ((realMath random).hypot (mouse.x - p.x) (mouse.y - p.y)) = 1
      ∧ (∀ d : ℝ, orOne d ≠ 0)
      ∧ (0 < cfg.attractRadius →
          attractForce cfg ((realMath random).hypot (mouse.x - p.x) (mouse.y - p.y))
              = cfg.attractStrength
            ∧ applyAttraction (realMath random) cfg mouse p =
              { p with
                vx := p.vx + (mouse.x - p.x) / 1 * cfg.attractStrength
                vy := p.vy + (mouse.y - p.y) / 1 * cfg.attractStrength })
      ∧ applyAttraction (realMath random) cfg mouse p = p := by
  have hD : (realMath random).hypot (mouse.x - p.x) (mouse.y - p.y) = 0 := by
    rw [realMath_hypot, hx, hy]
    simp
  refine ⟨hD, ?_, orOne_ne_zero, ?_, applyAttraction_at_pointer random cfg mouse p hx hy⟩
  · rw [hD]
    simp [orOne]
  · intro hR
    constructor
    · rw [hD]
      simp [attractForce]
    · unfold applyAttraction
      simp only [hact, if_true, hD, hR, orOne, attractForce, zero_div, sub_zero, one_mul]

/-- The scenario of the specification: pointer and particle both at
(100, 100), shipped configuration. -/
theorem attraction_at_zero_distance_witness :
    (Mouse.mk (100 : ℝ) 100 true).active = true
      ∧ applyAttraction (realMath fun _ => 0) (CONFIG ℝ) (Mouse.mk 100 100 true)
          { x := 100, y := 100, vx := 1, vy := 0, size := 2, homeX := 100, homeY := 100 }
        = { x := 100, y := 100, vx := 1, vy := 0, size := 2, homeX := 100, homeY := 100 } :=
  ⟨rfl,
   (attraction_at_zero_distance (fun _ => 0) (CONFIG ℝ) (Mouse.mk 100 100 true)
      { x := 100, y := 100, vx := 1, vy := 0, size := 2, homeX := 100, homeY := 100 }
      rfl rfl rfl).2.2.2.2⟩

/-- Claim C7 fails as stated. Pointer active at (100, 100), particle at
(100, 100), shipped configuration: the vector the attraction step adds to the
velocity has magnitude `0`, not `attractStrength = 0.16`. -/
theorem attraction_at_zero_distance_not_full :
    ¬ Real.sqrt
        (((applyAttraction (realMath fun _ => 0) (CONFIG ℝ) (Mouse.mk 100 100 true)
              { x := 100, y := 100, vx := 1, vy := 0, size := 2, homeX := 100, homeY := 100 }).vx
            - 1) ^ 2
          + ((applyAttraction (realMath fun _ => 0) (CONFIG ℝ) (Mouse.mk 100 100 true)
              { x := 100, y := 100, vx := 1, vy := 0, size := 2, homeX := 100, homeY := 100 }).vy
            - 0) ^ 2)
      = (CONFIG ℝ).attractStrength := by
  rw [applyAttraction_at_pointer _ _ _ _ rfl rfl]
  norm_num [CONFIG]

/-! ## Link lines (C6) -/

theorem dist2_nonneg (a b : Particle K) : 0 ≤ dist2 a b := by
  unfold dist2
  exact add_nonneg (mul_self_nonneg _) (mul_self_nonneg _)

/-- Every stroke of the inner link loop joins `a` to a later particle closer
than `r`, under the alpha computed for the pair. -/
theorem mem_linksFrom (M : JSMath K) (r : K) (a : Particle K) (bs : List (Particle K))
    (d : Draw K) (hd : d ∈ linksFrom M r a bs) :
    ∃ b ∈ bs, dist2 a b < r * r ∧ d = Draw.line (linkAlpha M r a b) a.x a.y b.x b.y := by
  induction bs with
  | nil => simp [linksFrom] at hd
  | cons b bs ih =>
    simp only [linksFrom, List.mem_append] at hd
    rcases hd with hd | hd
    · by_cases hlt : dist2 a b < r * r
      · rw [if_pos hlt, List.mem_singleton] at hd
        exact ⟨b, List.mem_cons_self _ _, hlt, hd⟩
      · rw [if_neg hlt] at hd
        simp at hd
    · obtain ⟨b', hb', hlt, rfl⟩ := ih hd
      exact ⟨b', List.mem_cons_of_mem _ hb', hlt, rfl⟩

theorem mem_drawLinks (M : JSMath K) (r : K) (ps : List (Particle K)) (d : Draw K)
    (hd : d ∈ drawLinks M r ps) :
    ∃ a ∈ ps, ∃ b ∈ ps,
      dist2 a b < r * r ∧ d = Draw.line (linkAlpha M r a b) a.x a.y b.x b.y := by
  induction ps with
  | nil => simp [drawLinks] at hd
  | cons a ps ih =>
    simp only [drawLinks, List.mem_append] at hd
    rcases hd with hd | hd
    · obtain ⟨b, hb, hlt, rfl⟩ := mem_linksFrom M r a ps d hd
      exact ⟨a, List.mem_cons_self _ _, b, List.mem_cons_of_mem _ hb, hlt, rfl⟩
    · obtain ⟨a', ha', b, hb, hlt, rfl⟩ := ih hd
      exact ⟨a', List.mem_cons_of_mem _ ha', b, List.mem_cons_of_mem _ hb, hlt, rfl⟩

/-- The update loop only fills discs: it strokes no line. -/
theorem line_not_mem_updateAll (M : JSMath K) (cfg : Config K) (w h : K) (mouse : Mouse K)
    (ps : List (Particle K)) (t : ℕ) (α x1 y1 x2 y2 : K) :
    Draw.line α x1 y1 x2 y2 ∉ (updateAll M cfg w h mouse ps t).2 := by
  induction ps generalizing t with
  | nil => simp [updateAll]
  | cons p ps ih =>
    simp only [updateAll, List.mem_cons, not_or]
    exact ⟨by simp, ih (t + 2)⟩

/-- The lines a frame strokes are those of the link pass. -/
theorem line_mem_step (M : JSMath K) (cfg : Config K) (s : World K) (α x1 y1 x2 y2 : K)
    (hd : Draw.line α x1 y1 x2 y2 ∈ (step M cfg s).2) :
    0 < cfg.linkRadius
      ∧ Draw.line α x1 y1 x2 y2 ∈ drawLinks M cfg.linkRadius s.particles := by
  simp only [step, List.mem_append] at hd
  rcases hd with hd | hd
  · by_cases hr : cfg.linkRadius > 0
    · rw [if_pos hr] at hd
      exact ⟨hr, hd⟩
    · rw [if_neg hr] at hd
      simp at hd
  · exact absurd hd (line_not_mem_updateAll _ _ _ _ _ _ _ _ _ _ _ _)

/-- Over the reals the stroke alpha of a pair is `(1 - d / r) * 0.6` at their
distance `d = sqrt(d2)`. -/
theorem realMath_linkAlpha (random : ℕ → ℝ) (r : ℝ) (a b : Particle ℝ) :
    linkAlpha (realMath random) r a b = (1 - Real.sqrt (dist2 a b) / r) * 0.6 :=
  rfl

/-- With links enabled, a frame on two particles closer than the link radius
strokes the line between them. -/
theorem line_mem_step_pair (random : ℕ → ℝ) (cfg : Config ℝ) (s : World ℝ) (a b : Particle ℝ)
    (hr : 0 < cfg.linkRadius) (hlt : Real.sqrt (dist2 a b) < cfg.linkRadius) :
    Draw.line (linkAlpha (realMath random) cfg.linkRadius a b) a.x a.y b.x b.y
      ∈ (step (realMath random) cfg { s with particles := [a, b] }).2 := by
  have hlt2 : dist2 a b < cfg.linkRadius * cfg.linkRadius := by
    have h := (Real.sqrt_lt' hr).mp hlt
    rwa [sq] at h
  simp only [step, gt_iff_lt, hr, if_true, drawLinks, linksFrom, hlt2, List.mem_append]
  left
  simp

/-- Claim C6, as the code has it. With links enabled (`linkRadius > 0`), every
line a frame strokes joins two particles at a distance `d < linkRadius`, with
`globalAlpha = (1 - d / linkRadius) * 0.6`, and a pair closer than
`linkRadius` is stroked so. As a function of `d` this alpha is strictly
decreasing and linear; at `d = 0` it takes its maximum, which is `0.6` (the
factor `1 - d / linkRadius` is `1` there), and it is `0` exactly at
`d = linkRadius`. -/
theorem link_alpha_fades (random : ℕ → ℝ) (cfg : Config ℝ) (s : World ℝ)
    (hr : 0 < cfg.linkRadius) :
    (∀ α x1 y1 x2 y2 : ℝ, Draw.line α x1 y1 x2 y2 ∈ (step (realMath random) cfg s).2 →
        ∃ a ∈ s.particles, ∃ b ∈ s.particles,
          Real.sqrt (dist2 a b) < cfg.linkRadius
            ∧ α = (1 - Real.sqrt (dist2 a b) / cfg.linkRadius) * 0.6
            ∧ x1 = a.x ∧ y1 = a.y ∧ x2 = b.x ∧ y2 = b.y)
      ∧ (∀ a b : Particle ℝ, Real.sqrt (dist2 a b) < cfg.linkRadius →
          Draw.line ((1 - Real.sqrt (dist2 a b) / cfg.linkRadius) * 0.6) a.x a.y b.x b.y
            ∈ (step (realMath random) cfg { s with particles := [a, b] }).2)
      ∧ StrictAnti (fun d : ℝ => (1 - d / cfg.linkRadius) * 0.6)
      ∧ (∀ d : ℝ, (1 - d / cfg.linkRadius) * 0.6 = 0.6 - 0.6 / cfg.linkRadius * d)
      ∧ (1 - 0 / cfg.linkRadius) * 0.6 = (0.6 : ℝ)
      ∧ (∀ d : ℝ, 0 ≤ d → (1 - d / cfg.linkRadius) * 0.6 ≤ (1 - 0 / cfg.linkRadius) * 0.6)
      ∧ (∀ d : ℝ, (1 - d / cfg.linkRadius) * 0.6 = 0 ↔ d = cfg.linkRadius) := by
  have hne : cfg.linkRadius ≠ 0 := hr.ne.symm
  refine ⟨?_, ?_, ?_, ?_, ?_, ?_, ?_⟩
  · intro α x1 y1 x2 y2 hd
    obtain ⟨_, hd'⟩ := line_mem_step _ _ _ _ _ _ _ _ hd
    obtain ⟨a, ha, b, hb, hlt, heq⟩ := mem_drawLinks _ _ _ _ hd'
    have hlt' : Real.sqrt (dist2 a b) < cfg.linkRadius := by
      rw [Real.sqrt_lt' hr, sq]
      exact hlt
    rw [realMath_linkAlpha] at heq
    injection heq with h1 h2 h3 h4 h5
    exact ⟨a, ha, b, hb, hlt', h1, h2, h3, h4, h5⟩
  · intro a b hlt
    exact line_mem_step_pair random cfg s a b hr hlt
  · intro d1 d2 hlt
    have hdiv : d1 / cfg.linkRadius < d2 / cfg.linkRadius := div_lt_div_of_pos_right hlt hr
    show (1 - d2 / cfg.linkRadius) * 0.6 < (1 - d1 / cfg.linkRadius) * 0.6
    linarith
  · intro d
    field_simp
    ring
  · norm_num
  · intro d hd
    have hdiv : 0 ≤ d / cfg.linkRadius := div_nonneg hd hr.le
    norm_num
    linarith
  · intro d
    constructor
    · intro h
      have h1 : 1 - d / cfg.linkRadius = 0 := by
        rcases mul_eq_zero.mp h with h | h
        · exact h
        · norm_num at h
      have h2 : d / cfg.linkRadius = 1 := by linarith
      exact (div_eq_one_iff_eq hne).mp h2
    · rintro rfl
      rw [div_self hne]
      norm_num

/-- Two particles 5 apart, 60 short of the shipped link radius 65. -/
theorem link_alpha_fades_witness :
    0 < (CONFIG ℝ).linkRadius
      ∧ ((1 - 0 / (CONFIG ℝ).linkRadius) * 0.6 = (0.6 : ℝ))
      ∧ ((1 - (CONFIG ℝ).linkRadius / (CONFIG ℝ).linkRadius) * 0.6 = (0 : ℝ)) :=
  ⟨by norm_num [CONFIG],
   (link_alpha_fades (fun _ => 0) (CONFIG ℝ)
      { w := 800, h := 600, particles := [], mouse := { x := 0, y := 0, active := false },
        tick := 0 } (by norm_num [CONFIG])).2.2.2.2.1,
   ((link_alpha_fades (fun _ => 0) (CONFIG ℝ)
      { w := 800, h := 600, particles := [], mouse := { x := 0, y := 0, active := false },
        tick := 0 } (by norm_num [CONFIG])).2.2.2.2.2.2 _).mpr rfl⟩

/-- Claim C6 fails as stated. Two particles at the same point (distance `0`),
shipped configuration: the frame strokes their link with `globalAlpha`
`0.6`, which is not full opacity `1`. -/
theorem link_alpha_at_zero_distance_not_full :
    Real.sqrt (dist2
        ({ x := 10, y := 10, vx := 0, vy := 0, size := 2, homeX := 10, homeY := 10 } : Particle ℝ)
        { x := 10, y := 10, vx := 0, vy := 0, size := 2, homeX := 10, homeY := 10 }) = 0
      ∧ Draw.line (0.6 : ℝ) 10 10 10 10
          ∈ (step (realMath fun _ => 0) (CONFIG ℝ)
              { w := 800, h := 600, mouse := { x := -9999, y := -9999, active := false }, tick := 0
                particles :=
                  [{ x := 10, y := 10, vx := 0, vy := 0, size := 2, homeX := 10, homeY := 10 },
                   { x := 10, y := 10, vx := 0, vy := 0, size := 2, homeX := 10, homeY := 10 }] }).2
      ∧ ¬ linkAlpha (realMath fun _ => 0) (CONFIG ℝ).linkRadius
            { x := 10, y := 10, vx := 0, vy := 0, size := 2, homeX := 10, homeY := 10 }
            { x := 10, y := 10, vx := 0, vy := 0, size := 2, homeX := 10, homeY := 10 } = 1 := by
  have hd : Real.sqrt (dist2
      ({ x := 10, y := 10, vx := 0, vy := 0, size := 2, homeX := 10, homeY := 10 } : Particle ℝ)
      { x := 10, y := 10, vx := 0, vy := 0, size := 2, homeX := 10, homeY := 10 }) = 0 := by
    simp [dist2]
  have hα : linkAlpha (realMath fun _ => 0) (CONFIG ℝ).linkRadius
      { x := 10, y := 10, vx := 0, vy := 0, size := 2, homeX := 10, homeY := 10 }
      { x := 10, y := 10, vx := 0, vy := 0, size := 2, homeX := 10, homeY := 10 } = 0.6 := by
    rw [realMath_linkAlpha, hd]
    norm_num
  refine ⟨hd, ?_, ?_⟩
  · have h := line_mem_step_pair (fun _ => 0) (CONFIG ℝ)
      { w := 800, h := 600, particles := [],
        mouse := { x := -9999, y := -9999, active := false }, tick := 0 }
      { x := 10, y := 10, vx := 0, vy := 0, size := 2, homeX := 10, homeY := 10 }
      { x := 10, y := 10, vx := 0, vy := 0, size := 2, homeX := 10, homeY := 10 }
      (by norm_num [CONFIG]) (by rw [hd]; norm_num [CONFIG])
    rw [hα] at h
    exact h
  · rw [hα]
    norm_num

end ParticlesAttract
